import Mathlib

/-!
Verification development for the dotbins binary synchronization engine
(`lib/downloader.py`, `lib/security.py`, `lib/manager.py`).

The Python code is shallowly embedded: the filesystem pieces the engine
touches (manifest, state store, cache directory, install directory, pin
store, backup files) become association lists from path/key strings to
values, file contents become an inductive `Content` type (raw bytes, tar
archive with members, zip archive with members), the network becomes a
function `String → Option Content` (`none` models any transport failure:
timeout, reset, non-2xx, mid-stream error), and the SHA-256 digest
becomes an explicit function parameter `hash : Content → String`.
All definitions are executable, so concrete runs evaluate by `decide`.
-/

namespace Dotbins

/-- File contents as seen by the engine: a raw byte file, a tar-family
archive with named members, or a zip archive with named members. -/
inductive Content where
  | raw (bytes : List Nat)
  | tar (members : List (String × List Nat))
  | zip (members : List (String × List Nat))
deriving DecidableEq, Repr

/-- Association-list lookup, modelling `dict[key]` / `key in dict`. -/
def lookup {α : Type} (l : List (String × α)) (k : String) : Option α :=
  match l with
  | [] => none
  | (k', v) :: t => if k' = k then some v else lookup t k

/-- Association-list insert-or-replace, modelling `dict[key] = value`
and writing a file at a path. -/
def upsert {α : Type} (l : List (String × α)) (k : String) (v : α) :
    List (String × α) :=
  match l with
  | [] => [(k, v)]
  | (k', v') :: t => if k' = k then (k, v) :: t else (k', v') :: upsert t k v

/-- A manifest entry (`manifest[key]` in `sync_tool`): all fields are read
with `.get`, so each is optional. -/
structure Entry where
  url : Option String
  sha256 : Option String
  tag : Option String
  binary_name : Option String
  path_in_archive : Option String
deriving DecidableEq, Repr

/-- A state-store record, as written by `sync_tool` on success:
`{'sha256': ..., 'url': ..., 'installed_at': ...}`. -/
structure InstallRec where
  sha256 : Option String
  url : String
  installed_at : String
deriving DecidableEq, Repr

/-- The persistent state `sync_tool`/`sync_all` read and write: the
manifest file, the state store (`state.json`), the cache directory
(keyed by cache filename) and the install tree (keyed by
`<platform>/<arch>/bin/<binary_name>`). -/
structure Sys where
  manifest : List (String × Entry)
  state : List (String × InstallRec)
  cache : List (String × Content)
  bins : List (String × Content)
deriving DecidableEq, Repr

/-- Which branch `download_file` returned from: success, the SHA-256
mismatch branch (prints "SHA256 mismatch", unlinks the temp file,
returns False), or the exception branch (URLError / any exception,
returns False). -/
inductive DlStatus where
  | ok
  | integrityError
  | transportError
deriving DecidableEq, Repr

/-- Result of `download_file`: the destination file map after the call,
the downloaded content on success, which branch ran, whether the
`NamedTemporaryFile(delete=False)` file is still on disk afterwards, and
how many SHA-256 digest computations ran. -/
structure DlOut where
  files : List (String × Content)
  got : Option Content
  status : DlStatus
  tempLeft : Bool
  hashes : Nat
deriving DecidableEq, Repr

/-- `BinaryDownloader.download_file(url, dest_path, expected_sha256)`:
stream the URL to a temporary file; on network/protocol failure return
False leaving `dest_path` untouched (the temp file is not unlinked); if
a digest is expected, compare it against the temp file's digest and on
mismatch unlink the temp file and return False; otherwise move the temp
file to `dest_path` and return True. -/
def download_file (hash : Content → String) (net : String → Option Content)
    (files : List (String × Content)) (url dest : String)
    (expected : Option String) : DlOut :=
  match net url with
  | none => ⟨files, none, .transportError, true, 0⟩
  | some c =>
    match expected with
    | some e =>
      if hash c = e then ⟨upsert files dest c, some c, .ok, false, 1⟩
      else ⟨files, none, .integrityError, false, 1⟩
    | none => ⟨upsert files dest c, some c, .ok, false, 0⟩

/-- `as` begins the list `bs` (Python `startswith` on characters). -/
def beginsWith {α : Type} [DecidableEq α] : List α → List α → Bool
  | [], _ => true
  | _ :: _, [] => false
  | a :: as, b :: bs => if a = b then beginsWith as bs else false

/-- `needle` occurs as a contiguous sublist of the argument
(Python `needle in haystack` on strings/bytes). -/
def hasSub {α : Type} [DecidableEq α] (needle : List α) : List α → Bool
  | [] => needle.isEmpty
  | a :: t => beginsWith needle (a :: t) || hasSub needle t

/-- Python `haystack.endswith(suffixChars)` on character lists. -/
def endsW {α : Type} [DecidableEq α] (l suf : List α) : Bool :=
  beginsWith suf.reverse l.reverse

/-- Python `pattern.split('*')`: every maximal (possibly empty) run of
non-star characters, in order; always nonempty. -/
def splitStar : List Char → List (List Char)
  | [] => [[]]
  | c :: t =>
    let r := splitStar t
    if c = '*' then [] :: r
    else
      match r with
      | [] => [[c]]
      | h :: tl => (c :: h) :: tl

/-- Python `'*' in pattern`: the character occurs in the list. -/
def hasStar : List Char → Bool
  | [] => false
  | c :: t => if c = '*' then true else hasStar t

/-- `BinaryDownloader._path_matches(path, pattern)` on character lists:
no `*` means exact suffix match; a single `*` splits into two parts
matched by `startswith`/`endswith`; more stars fall back to "every
non-empty part is a substring". -/
def pmatches (path pat : List Char) : Bool :=
  if hasStar pat = false then endsW path pat
  else
    match splitStar pat with
    | [p0, p1] => beginsWith p0 path && endsW path p1
    | parts => (parts.filter (fun x => !x.isEmpty)).all
        (fun part => hasSub part path)

/-- `BinaryDownloader._path_matches` on strings. -/
def path_matches (path pat : String) : Bool :=
  pmatches path.toList pat.toList

/-- The member-search loop shared by `_extract_from_tar` (over
`tar.getmembers()`) and `_extract_from_zip` (over `zf.namelist()`):
return the bytes of the first member whose name matches, else fail. -/
def memberSearch (pat : String) : List (String × List Nat) → Option (List Nat)
  | [] => none
  | m :: rest => if path_matches m.1 pat then some m.2 else memberSearch pat rest

/-- Characters strictly after the last `'.'` of the list, `none` when
there is no dot. -/
def afterLastDot : List Char → Option (List Char)
  | [] => none
  | c :: t =>
    match afterLastDot t with
    | some s => some s
    | none => if c = '.' then some t else none

/-- Python `pathlib.Path(name).suffix` for a bare filename: the last
extension including its dot; empty when the only dot is the leading
character, the trailing character, or there is no dot. -/
def pathSuffix (name : String) : String :=
  match name.toList with
  | [] => ""
  | _ :: rest =>
    match afterLastDot rest with
    | none => ""
    | some s => if s = [] then "" else String.mk ('.' :: s)

/-- Python `'.tar' in name` as used by `extract_binary`. -/
def hasTarInName (name : String) : Bool :=
  hasSub ".tar".toList name.toList

/-- `extract_binary`'s dispatch condition for the tar-family branch:
`archive_path.suffix in ['.gz', '.bz2', '.xz'] or '.tar' in archive_path.name`. -/
def isTarName (name : String) : Bool :=
  (pathSuffix name = ".gz" || pathSuffix name = ".bz2"
    || pathSuffix name = ".xz") || hasTarInName name

/-- The archive kind `extract_binary` resolves from the filename. -/
inductive ArchKind where
  | tarK
  | zipK
  | rawK
deriving DecidableEq, Repr

/-- `BinaryDownloader.extract_binary`'s extension dispatch: tar-family,
zip (`suffix == '.zip'`), else raw copy. -/
def archKind (name : String) : ArchKind :=
  if isTarName name then .tarK
  else if pathSuffix name = ".zip" then .zipK
  else .rawK

/-- `BinaryDownloader.extract_binary(archive_path, binary_path, dest_path)`:
dispatch on the archive filename; for tar/zip search the members and
install the first match's bytes (opening a non-tar as tar, or a non-zip
as zip, raises and is caught, returning False, modelled `none`); for a
raw artifact copy the file as-is. `none` models a False return, `some c`
the content installed at `dest_path` (which is also chmod'ed 0o755). -/
def extract_binary (name : String) (c : Content) (pat : String) :
    Option Content :=
  match archKind name with
  | .tarK =>
    match c with
    | .tar ms => (memberSearch pat ms).map Content.raw
    | _ => none
  | .zipK =>
    match c with
    | .zip ms => (memberSearch pat ms).map Content.raw
    | _ => none
  | .rawK => some c

/-- Python falsiness of the optional `url` field (`if not url`). -/
def falsyUrl : Option String → Bool
  | none => true
  | some s => s = ""

/-- The composite manifest/state key `f"{tool}/{platform}/{arch}"`. -/
def mkKey (tool platform arch : String) : String :=
  tool ++ "/" ++ platform ++ "/" ++ arch

/-- The install path `<root>/<platform>/<arch>/bin/<binary_name>`,
relative to the dotbins root. -/
def binPath (platform arch binName : String) : String :=
  platform ++ "/" ++ arch ++ "/bin/" ++ binName

/-- Python `s.endswith(suffixString)` on strings. -/
def sEndsWith (s suf : String) : Bool :=
  endsW s.toList suf.toList

/-- The cache filename `f"{tool}-{tag}-{platform}-{arch}"` plus the
archive extension copied from the URL when it is one of the four known
ones. -/
def cacheName (tool : String) (tag : Option String) (platform arch u : String) :
    String :=
  let base := tool ++ "-" ++ tag.getD "latest" ++ "-" ++ platform ++ "-" ++ arch
  if sEndsWith u ".tar.gz" then base ++ ".tar.gz"
  else if sEndsWith u ".tar.bz2" then base ++ ".tar.bz2"
  else if sEndsWith u ".tar.xz" then base ++ ".tar.xz"
  else if sEndsWith u ".zip" then base ++ ".zip"
  else base

/-- `sync_tool`'s up-to-date check: not forced, a state record exists for
the key, and its recorded `sha256` equals the manifest's (`None == None`
counts as equal, as in Python). -/
def upToDateB (state : List (String × InstallRec)) (key : String)
    (sha : Option String) (force : Bool) : Bool :=
  !force &&
    (match lookup state key with
     | some r => decide (r.sha256 = sha)
     | none => false)

/-- Outcome of the download-or-reuse-cache phase of `sync_tool`: the
cache directory afterwards, the archive content to extract from on
success, and the counts of `download_file` calls and SHA-256
computations. -/
structure FetchOut where
  cache : List (String × Content)
  res : Option Content
  fetches : Nat
  hashes : Nat
deriving DecidableEq, Repr

/-- The download-or-reuse-cache phase of `sync_tool`: download when
forced or when the cache file is missing; otherwise reuse the cached
file, but when a digest is declared first recompute the cached file's
digest and re-download (with verification) on mismatch. -/
def fetchPhase (hash : Content → String) (net : String → Option Content)
    (cache : List (String × Content)) (u cf : String) (sha : Option String)
    (force : Bool) : FetchOut :=
  if force then
    match download_file hash net cache u cf sha with
    | ⟨files, got, _, _, hashes⟩ => ⟨files, got, 1, hashes⟩
  else
    match lookup cache cf with
    | none =>
      match download_file hash net cache u cf sha with
      | ⟨files, got, _, _, hashes⟩ => ⟨files, got, 1, hashes⟩
    | some c =>
      match sha with
      | none => ⟨cache, some c, 0, 0⟩
      | some s =>
        if hash c = s then ⟨cache, some c, 0, 1⟩
        else
          match download_file hash net cache u cf (some s) with
          | ⟨files, got, _, _, hashes⟩ => ⟨files, got, 1, 1 + hashes⟩

/-- Result of a `sync_tool` call: the system state afterwards, the
boolean return value, and instrumentation counting `download_file`
calls, SHA-256 computations, and extraction attempts. -/
structure SyncOut where
  sys : Sys
  ok : Bool
  fetches : Nat
  hashes : Nat
  extracts : Nat
deriving DecidableEq, Repr

/-- `BinaryDownloader.sync_tool(tool_name, platform, arch, force)`:
resolve the manifest entry, fail without a URL, return early when
up-to-date, download or reuse the cached archive, extract the binary to
`<platform>/<arch>/bin/<binary_name>`, and only then record
`{sha256, url, installed_at}` in the state store. -/
def sync_tool (hash : Content → String) (net : String → Option Content)
    (now : String) (sys : Sys) (tool platform arch : String) (force : Bool) :
    SyncOut :=
  match lookup sys.manifest (mkKey tool platform arch) with
  | none => ⟨sys, false, 0, 0, 0⟩
  | some entry =>
    match entry.url with
    | none => ⟨sys, false, 0, 0, 0⟩
    | some u =>
      if u = "" then ⟨sys, false, 0, 0, 0⟩
      else if upToDateB sys.state (mkKey tool platform arch) entry.sha256
          force then
        ⟨sys, true, 0, 0, 0⟩
      else
        match fetchPhase hash net sys.cache u
            (cacheName tool entry.tag platform arch u) entry.sha256 force with
        | ⟨cache', none, ft, hn⟩ =>
          ⟨{ sys with cache := cache' }, false, ft, hn, 0⟩
        | ⟨cache', some c, ft, hn⟩ =>
          match extract_binary (cacheName tool entry.tag platform arch u) c
              (entry.path_in_archive.getD (entry.binary_name.getD tool)) with
          | none => ⟨{ sys with cache := cache' }, false, ft, hn, 1⟩
          | some bc =>
            ⟨{ manifest := sys.manifest,
               state := upsert sys.state (mkKey tool platform arch)
                 ⟨entry.sha256, u, now⟩,
               cache := cache',
               bins := upsert sys.bins
                 (binPath platform arch (entry.binary_name.getD tool)) bc },
             true, ft, hn, 1⟩

/-- Python `key.split('/')` as a list of strings. -/
def splitKey (k : String) : List String :=
  (splitStar (k.toList.map (fun c => if c = '/' then '*' else c))).map
    (fun cs => String.mk (cs.map (fun c => if c = '*' then '/' else c)))

/-- The platform filter of `sync_all` with `current_platform_only`:
skip keys whose platform or arch differs from the detected one
(modelled as an optional explicit pair). -/
def skipKey (cur : Option (String × String)) (platform arch : String) : Bool :=
  match cur with
  | none => false
  | some (cp, ca) => platform ≠ cp || arch ≠ ca

/-- Result of `sync_all`: the system state afterwards and the per-key
result mapping, in manifest order. -/
structure AllOut where
  sys : Sys
  results : List (String × Bool)
deriving DecidableEq, Repr

/-- The `for key in manifest` loop of `sync_all`: skip keys without
exactly three `/`-separated parts and keys filtered out by the platform
filter; otherwise run `sync_tool` on the threaded state and record the
key's boolean outcome. A key's failure never stops the loop. -/
def syncAllGo (hash : Content → String) (net : String → Option Content)
    (now : String) (cur : Option (String × String)) (force : Bool)
    (sys : Sys) : List (String × Entry) → AllOut
  | [] => ⟨sys, []⟩
  | (k, _) :: rest =>
    match splitKey k with
    | [t, p, a] =>
      if skipKey cur p a then syncAllGo hash net now cur force sys rest
      else
        let r := sync_tool hash net now sys t p a force
        let tail := syncAllGo hash net now cur force r.sys rest
        ⟨tail.sys, (k, r.ok) :: tail.results⟩
    | _ => syncAllGo hash net now cur force sys rest

/-- `BinaryDownloader.sync_all(current_platform_only, force)`: iterate
the manifest's keys and aggregate each key's boolean outcome. -/
def sync_all (hash : Content → String) (net : String → Option Content)
    (now : String) (cur : Option (String × String)) (force : Bool)
    (sys : Sys) : AllOut :=
  syncAllGo hash net now cur force sys sys.manifest

/-- The keys of the manifest that `sync_all` actually processes: those
with exactly three `/`-separated parts that pass the platform filter. -/
def processedKeys : List (String × Entry) → Option (String × String) →
    List String
  | [], _ => []
  | (k, _) :: rest, cur =>
    match splitKey k with
    | [_, p, a] =>
      if skipKey cur p a then processedKeys rest cur
      else k :: processedKeys rest cur
    | _ => processedKeys rest cur

/-- A file on disk as `SecurityScanner.verify_binary` observes it:
its bytes and whether any of the three execute bits
(`st_mode & 0o111`) is set. -/
structure FileInfo where
  bytes : List Nat
  executable : Bool
deriving DecidableEq, Repr

/-- The Git LFS pointer signature
`b'version https://git-lfs.github.com/spec/v1'` as bytes. -/
def lfsMarker : List Nat :=
  "version https://git-lfs.github.com/spec/v1".toList.map Char.toNat

/-- The hash of raw bytes, as `verify_binary` computes it; archive
contents never reach this check, so they are hashed through the same
content hash parameter. -/
def bytesHash (hash : Content → String) (bs : List Nat) : String :=
  hash (Content.raw bs)

/-- `SecurityScanner.verify_binary(binary_path, expected_sha256)`:
fail when the file is missing; fail when the first 1024 bytes contain
the Git LFS pointer signature; fail when no execute bit is set; fail
when a supplied digest does not match; otherwise succeed. Returns the
`(is_valid, message)` pair. -/
def verify_binary (hash : Content → String) (file : Option FileInfo)
    (expected : Option String) : Bool × String :=
  match file with
  | none => (false, "Binary file not found")
  | some f =>
    if hasSub lfsMarker (f.bytes.take 1024) then
      (false, "File is a Git LFS pointer, not actual binary")
    else if !f.executable then
      (false, "File is not executable")
    else
      match expected with
      | some e =>
        if bytesHash hash f.bytes = e then (true, "Binary verified")
        else (false, "SHA256 mismatch: expected " ++ e ++ ", got "
                ++ bytesHash hash f.bytes)
      | none => (true, "Binary verified")

/-- A backup snapshot as `ToolManager.create_backup` writes it:
`{'timestamp': ..., 'state': ..., 'pins': ...}`. -/
structure Backup where
  timestamp : String
  state : List (String × InstallRec)
  pins : List (String × String)
deriving DecidableEq, Repr

/-- The manager-level persistent state: the downloader state store, the
pin store (`.pins.json`), the install tree, and the backup files
(keyed by backup filename). -/
structure MgrFS where
  state : List (String × InstallRec)
  pins : List (String × String)
  bins : List (String × Content)
  backups : List (String × Backup)
deriving DecidableEq, Repr

/-- `ToolManager.create_backup()`: write
`{timestamp, state: load_state(), pins: _load_pins()}` to a fresh
timestamp-named file `.backup_<ts>.json` and return its path. Only the
backup file is written. -/
def create_backup (m : MgrFS) (nowName nowIso : String) : MgrFS × String :=
  let file := ".backup_" ++ nowName ++ ".json"
  ({ m with backups := upsert m.backups file ⟨nowIso, m.state, m.pins⟩ }, file)

/-- `ToolManager.restore_backup(backup_file)`: read the snapshot and
overwrite the state store with its `state` and the pin store with its
`pins`; binaries are not touched. A missing file raises, modelled as
`none`. -/
def restore_backup (m : MgrFS) (file : String) : Option MgrFS :=
  match lookup m.backups file with
  | none => none
  | some b => some { m with state := b.state, pins := b.pins }

/-! ### Claim-side definitions and concrete example instances -/

/-- Number of `'*'` characters in a pattern. -/
def starCount : List Char → Nat
  | [] => 0
  | c :: t => (if c = '*' then 1 else 0) + starCount t

/-- The matching relation in the claim's words, on character lists: the
pattern has no `'*'` and the path ends with it; or it has exactly one
`'*'` splitting it into a prefix part and a suffix part with the path
starting with the former and ending with the latter; or it has more than
one `'*'` and every non-empty literal segment occurs as a substring of
the path. -/
def matchClaimL (path pat : List Char) : Bool :=
  (decide (starCount pat = 0) && endsW path pat)
  || (decide (starCount pat = 1) &&
       (match splitStar pat with
        | [p0, p1] => beginsWith p0 path && endsW path p1
        | _ => false))
  || (decide (1 < starCount pat) &&
       ((splitStar pat).filter (fun x => !x.isEmpty)).all
         (fun part => hasSub part path))

/-- The claim's matching relation on strings. -/
def matchClaim (path pat : String) : Bool :=
  matchClaimL path.toList pat.toList

/-- A content hash discriminating by kind and, for raw files, by byte
sum: enough to build concrete runs where archive and member digests
differ or agree as needed. -/
def exHash : Content → String
  | .raw bs => "r" ++ toString (bs.foldl (fun a b => a + b) 0)
  | .tar ms => "t" ++ toString ms.length
  | .zip ms => "z" ++ toString ms.length

/-- A network serving one tar archive at one URL and failing elsewhere. -/
def exNet : String → Option Content := fun u =>
  if u = "http://x/a.tar.gz" then some (Content.tar [("dir/fzf", [1, 2, 3])])
  else none

/-- A network serving one raw binary at one URL and failing elsewhere. -/
def rawNet : String → Option Content := fun u =>
  if u = "http://x/fzf" then some (Content.raw [7]) else none

/-- A manifest entry pointing at the tar archive of `exNet`, declaring
the archive's `exHash` digest. -/
def exEntry : Entry :=
  ⟨some "http://x/a.tar.gz", some "t1", some "1", none, some "*/fzf"⟩

/-- A fresh system whose manifest holds only `exEntry`. -/
def exSys : Sys := ⟨[("fzf/linux/amd64", exEntry)], [], [], []⟩

/-- A manifest entry pointing at the raw binary of `rawNet`, declaring
its `exHash` digest. -/
def rawEntry : Entry := ⟨some "http://x/fzf", some "r7", some "1", none, none⟩

/-- A fresh system whose manifest holds only `rawEntry`. -/
def rawSys : Sys := ⟨[("fzf/linux/amd64", rawEntry)], [], [], []⟩

/-- A manifest entry whose URL `rawNet` does not serve. -/
def badEntry : Entry := ⟨some "http://x/missing", none, none, none, none⟩

/-- A two-key manifest over `rawNet`: the first key installs, the second
key's URL is unreachable. -/
def twoSys : Sys :=
  ⟨[("fzf/linux/amd64", rawEntry), ("bad/linux/amd64", badEntry)],
   [], [], []⟩

/-- `rawSys` with a stale cache file for the key: its content's digest
differs from the manifest's declared digest. -/
def staleSys : Sys :=
  ⟨[("fzf/linux/amd64", rawEntry)], [],
   [("fzf-1-linux-amd64", Content.raw [9, 9])], []⟩

/-- A manifest entry with no declared digest, served by `rawNet`. -/
def noShaEntry : Entry := ⟨some "http://x/fzf", none, some "1", none, none⟩

/-- A fresh system whose manifest holds only the digest-less entry. -/
def noShaSys : Sys := ⟨[("fzf/linux/amd64", noShaEntry)], [], [], []⟩

/-- A file whose Git LFS pointer signature starts only after the first
1024 bytes. -/
def lfsDeepFile : List Nat := List.replicate 1024 0 ++ lfsMarker

/-! ### Shared helper lemmas -/

theorem lookup_upsert_self {α : Type} (l : List (String × α)) (k : String)
    (v : α) : lookup (upsert l k v) k = some v := by
  induction l with
  | nil => simp [upsert, lookup]
  | cons hd tl ih =>
    obtain ⟨k', v'⟩ := hd
    by_cases h : k' = k <;> simp [upsert, lookup, h, ih]

/-! ### C1: download failure atomicity -/

/-- C1: whenever `download_file` is given an expected digest and the
downloaded content's digest differs, it runs the mismatch branch
(deletes the temporary file, returns failure) and the destination path
is untouched; and whenever the network fails, it returns the transport
failure branch and the destination file map is completely unchanged. -/
theorem download_file_atomicity (hash : Content → String)
    (net : String → Option Content) (files : List (String × Content))
    (url dest : String) :
    (∀ e c, net url = some c → hash c ≠ e →
      (download_file hash net files url dest (some e)).status
          = DlStatus.integrityError ∧
      (download_file hash net files url dest (some e)).tempLeft = false ∧
      lookup (download_file hash net files url dest (some e)).files dest
          = lookup files dest) ∧
    (∀ expected, net url = none →
      (download_file hash net files url dest expected).status
          = DlStatus.transportError ∧
      (download_file hash net files url dest expected).files = files) := by
  constructor
  · intro e c hc hne
    simp [download_file, hc, hne]
  · intro expected hn
    simp [download_file, hn]

/-- Concrete instance of `download_file_atomicity`: a digest mismatch on
the served archive, and a transport failure on an unserved URL. -/
theorem download_file_atomicity_witness :
    ((download_file exHash exNet [] "http://x/a.tar.gz" "d" (some "X")).status
        = DlStatus.integrityError ∧
      (download_file exHash exNet [] "http://x/a.tar.gz" "d"
          (some "X")).tempLeft = false ∧
      lookup (download_file exHash exNet [] "http://x/a.tar.gz" "d"
          (some "X")).files "d" = lookup ([] : List (String × Content)) "d") ∧
    ((download_file exHash exNet [] "http://y/b" "d" (some "X")).status
        = DlStatus.transportError ∧
      (download_file exHash exNet [] "http://y/b" "d" (some "X")).files
        = []) := by
  constructor
  · exact (download_file_atomicity exHash exNet [] "http://x/a.tar.gz" "d").1
      "X" (Content.tar [("dir/fzf", [1, 2, 3])]) (by decide) (by decide)
  · exact (download_file_atomicity exHash exNet [] "http://y/b" "d").2
      (some "X") (by decide)

/-! ### C9: backup/restore round trip -/

/-- C9: restoring the backup just created reproduces exactly the state
store and pin store that were in force at backup time, and touches
neither the installed binaries nor the backup files themselves. -/
theorem backup_restore_roundtrip (m : MgrFS) (nowName nowIso : String) :
    (restore_backup (create_backup m nowName nowIso).1
        (create_backup m nowName nowIso).2).map
      (fun r => (r.state, r.pins, r.bins, r.backups))
    = some (m.state, m.pins, m.bins,
        (create_backup m nowName nowIso).1.backups) := by
  simp [create_backup, restore_backup, lookup_upsert_self]

/-! ### C8: Git LFS pointer detection -/

set_option maxRecDepth 40000 in
/-- C8 counterexample: this executable file's contents contain the Git
LFS pointer signature, yet `verify_binary` accepts it, because the scan
covers only the first 1024 bytes and the signature sits entirely after
them. -/
theorem verify_binary_marker_cex :
    hasSub lfsMarker lfsDeepFile = true ∧
    verify_binary exHash (some ⟨lfsDeepFile, true⟩) none
      = (true, "Binary verified") := by
  constructor
  · decide
  · decide

/-- C8 amended: whenever the Git LFS pointer signature occurs within the
first 1024 bytes of the file (the window the verifier actually reads),
`verify_binary` reports the file invalid with the pointer-file reason,
regardless of the executable bit and of any expected digest. -/
theorem verify_binary_pointer_scan (hash : Content → String) (bs : List Nat)
    (ex : Bool) (expected : Option String)
    (h : hasSub lfsMarker (bs.take 1024) = true) :
    verify_binary hash (some ⟨bs, ex⟩) expected
      = (false, "File is a Git LFS pointer, not actual binary") := by
  simp [verify_binary, h]

/-- Concrete instance of `verify_binary_pointer_scan`: a file that is
exactly the pointer signature, with the executable bit set. -/
theorem verify_binary_pointer_scan_witness :
    verify_binary exHash (some ⟨lfsMarker, true⟩) none
      = (false, "File is a Git LFS pointer, not actual binary") :=
  verify_binary_pointer_scan exHash lfsMarker true none (by decide)

/-! ### C7: archive member selection -/

theorem splitStar_length (pat : List Char) :
    (splitStar pat).length = starCount pat + 1 := by
  induction pat with
  | nil => simp [splitStar, starCount]
  | cons c t ih =>
    by_cases h : c = '*'
    · simp [splitStar, starCount, h, ih]
      omega
    · cases hs : splitStar t with
      | nil => rw [hs] at ih; simp at ih
      | cons h0 tl =>
        rw [hs] at ih
        simp only [List.length_cons] at ih
        simp [splitStar, starCount, h, hs]
        omega

theorem hasStar_eq (pat : List Char) :
    hasStar pat = decide (0 < starCount pat) := by
  induction pat with
  | nil => simp [hasStar, starCount]
  | cons c t ih => by_cases h : c = '*' <;> simp [hasStar, starCount, h, ih]

theorem pmatches_eq_matchClaimL (path pat : List Char) :
    pmatches path pat = matchClaimL path pat := by
  have hlen := splitStar_length pat
  unfold pmatches matchClaimL
  by_cases h : hasStar pat = false
  · have h0 : starCount pat = 0 := by
      rw [hasStar_eq] at h
      simpa using h
    simp [h, h0]
  · have h1 : 0 < starCount pat := by
      rw [hasStar_eq] at h
      simp at h
      omega
    rw [if_neg h]
    cases hs : splitStar pat with
    | nil => rw [hs] at hlen; simp at hlen
    | cons p0 tl =>
      cases htl : tl with
      | nil =>
        rw [hs, htl] at hlen
        simp at hlen
        omega
      | cons p1 tl2 =>
        cases htl2 : tl2 with
        | nil =>
          rw [hs, htl, htl2] at hlen
          simp at hlen
          have hc1 : starCount pat = 1 := by omega
          simp [hs, htl, htl2, hc1]
        | cons p2 tl3 =>
          rw [hs, htl, htl2] at hlen
          simp at hlen
          have hc2 : 1 < starCount pat := by omega
          have hc0 : ¬ starCount pat = 0 := by omega
          have hc1 : ¬ starCount pat = 1 := by omega
          simp [hs, htl, htl2, hc0, hc1, hc2]

theorem memberSearch_eq_find (pat : String) (ms : List (String × List Nat)) :
    memberSearch pat ms
      = (ms.find? (fun m => path_matches m.1 pat)).map Prod.snd := by
  induction ms with
  | nil => simp [memberSearch]
  | cons m t ih =>
    cases h : path_matches m.1 pat <;>
      simp [memberSearch, List.find?, h, ih]

/-- C7: `_path_matches` coincides with the claim's three-case matching
relation; the member-search loop shared by the tar and zip extractors
returns exactly the first member (in archive-listing order) whose path
matches, and `none` (the `MemberNotFoundError` return) exactly when no
member matches; and `extract_binary` installs that first match's bytes
for tar and zip archives alike. -/
theorem extractor_member_selection (path pat name : String)
    (ms : List (String × List Nat)) :
    path_matches path pat = matchClaim path pat ∧
    memberSearch pat ms
      = (ms.find? (fun m => path_matches m.1 pat)).map Prod.snd ∧
    (archKind name = ArchKind.tarK →
      extract_binary name (Content.tar ms) pat
        = (ms.find? (fun m => path_matches m.1 pat)).map
            (fun m => Content.raw m.2)) ∧
    (archKind name = ArchKind.zipK →
      extract_binary name (Content.zip ms) pat
        = (ms.find? (fun m => path_matches m.1 pat)).map
            (fun m => Content.raw m.2)) := by
  refine ⟨pmatches_eq_matchClaimL path.toList pat.toList,
    memberSearch_eq_find pat ms, ?_, ?_⟩
  · intro hk
    simp [extract_binary, hk, memberSearch_eq_find pat ms, Option.map_map]
    rfl
  · intro hk
    simp [extract_binary, hk, memberSearch_eq_find pat ms, Option.map_map]
    rfl

/-- Concrete instance of `extractor_member_selection`: extraction from a
two-member tar picks the first match, and from a zip archive likewise. -/
theorem extractor_member_selection_witness :
    extract_binary "a.tar.gz" (Content.tar [("doc/readme", [9]),
        ("dir/fzf", [1]), ("other/fzf", [2])]) "*/fzf"
      = some (Content.raw [1]) ∧
    extract_binary "b.zip" (Content.zip [("w/fzf", [2])]) "fzf"
      = some (Content.raw [2]) := by
  constructor
  · rw [(extractor_member_selection "x" "*/fzf" "a.tar.gz"
      [("doc/readme", [9]), ("dir/fzf", [1]), ("other/fzf", [2])]).2.2.1
      (by decide)]
    decide
  · rw [(extractor_member_selection "x" "fzf" "b.zip"
      [("w/fzf", [2])]).2.2.2 (by decide)]
    decide

/-! ### C4: failed sync leaves prior state untouched -/

/-- C4: a `sync_tool` call that returns failure leaves the state store
exactly as it was, and whenever the state store did change the call
returned success and the installed binary is in place at the install
path — the state write is the last step, after the binary exists. -/
theorem sync_failed_resync_harmless (hash : Content → String)
    (net : String → Option Content) (now : String) (sys : Sys)
    (tool platform arch : String) (force : Bool) :
    ((sync_tool hash net now sys tool platform arch force).ok = false →
      (sync_tool hash net now sys tool platform arch force).sys.state
        = sys.state) ∧
    ((sync_tool hash net now sys tool platform arch force).sys.state
        ≠ sys.state →
      (sync_tool hash net now sys tool platform arch force).ok = true ∧
      ∃ e c, lookup sys.manifest (mkKey tool platform arch) = some e ∧
        lookup (sync_tool hash net now sys tool platform arch force).sys.bins
          (binPath platform arch (e.binary_name.getD tool)) = some c) := by
  unfold sync_tool
  split
  · exact ⟨fun _ => rfl, fun hc => absurd rfl hc⟩
  next entry heq =>
    split
    · exact ⟨fun _ => rfl, fun hc => absurd rfl hc⟩
    next u hurl =>
      split
      · exact ⟨fun _ => rfl, fun hc => absurd rfl hc⟩
      · split
        · exact ⟨fun h => by simp at h, fun hc => absurd rfl hc⟩
        · split
          · exact ⟨fun _ => rfl, fun hc => absurd rfl hc⟩
          next cache' c ft hn hF =>
            split
            · exact ⟨fun _ => rfl, fun hc => absurd rfl hc⟩
            next bc hext =>
              exact ⟨fun h => by simp at h,
                fun _ => ⟨rfl, entry, bc, heq, lookup_upsert_self _ _ _⟩⟩

/-- Concrete instance of `sync_failed_resync_harmless`: a sync whose
download fails (the manifest URL is not served) leaves the state store
unchanged, and a sync that does change the state store installed the
binary. -/
theorem sync_failed_resync_harmless_witness :
    (sync_tool exHash rawNet "t0" exSys "fzf" "linux" "amd64" false).sys.state
        = exSys.state ∧
    ((sync_tool exHash exNet "t0" exSys "fzf" "linux" "amd64" false).ok
        = true ∧
      ∃ e c, lookup exSys.manifest (mkKey "fzf" "linux" "amd64") = some e ∧
        lookup (sync_tool exHash exNet "t0" exSys "fzf" "linux"
            "amd64" false).sys.bins
          (binPath "linux" "amd64" (e.binary_name.getD "fzf")) = some c) := by
  constructor
  · exact (sync_failed_resync_harmless exHash rawNet "t0" exSys "fzf"
      "linux" "amd64" false).1 (by decide)
  · exact (sync_failed_resync_harmless exHash exNet "t0" exSys "fzf"
      "linux" "amd64" false).2 (by decide)

/-! ### C3: idempotence of sync -/

/-- Shape of a successful `sync_tool` call: the manifest entry exists
with a usable URL, the manifest is untouched, and afterwards the state
store holds a record for the key whose digest equals the manifest's. -/
theorem sync_ok_record (hash : Content → String)
    (net : String → Option Content) (now : String) (sys : Sys)
    (tool platform arch : String) (force : Bool)
    (hok : (sync_tool hash net now sys tool platform arch force).ok = true) :
    ∃ e u, lookup sys.manifest (mkKey tool platform arch) = some e ∧
      e.url = some u ∧ ¬u = "" ∧
      (sync_tool hash net now sys tool platform arch force).sys.manifest
        = sys.manifest ∧
      ∃ rec,
        lookup (sync_tool hash net now sys tool platform arch force).sys.state
            (mkKey tool platform arch) = some rec ∧
        rec.sha256 = e.sha256 := by
  revert hok
  unfold sync_tool
  split
  · intro h; simp at h
  next entry heq =>
    split
    · intro h; simp at h
    next u hurl =>
      split
      next hne => intro h; simp at h
      next hne =>
        split
        next hutd =>
          intro _
          refine ⟨entry, u, heq, hurl, hne, rfl, ?_⟩
          unfold upToDateB at hutd
          cases hlk : lookup sys.state (mkKey tool platform arch) with
          | none => rw [hlk] at hutd; simp at hutd
          | some rec =>
            rw [hlk] at hutd
            simp at hutd
            exact ⟨rec, rfl, hutd.2⟩
        next hutd =>
          split
          · intro h; simp at h
          next cache' c ft hn hF =>
            split
            · intro h; simp at h
            next bc hext =>
              intro _
              exact ⟨entry, u, heq, hurl, hne, rfl,
                ⟨entry.sha256, u, now⟩, lookup_upsert_self _ _ _, rfl⟩

/-- After any successful non-forced `sync_tool` call, re-running it on
the unchanged manifest entry is a no-op: the state record's digest
matches, so the second call returns up-to-date with zero fetches,
digest computations and extractions. -/
theorem sync_rerun_noop (hash : Content → String)
    (net : String → Option Content) (now now2 : String) (sys : Sys)
    (tool platform arch : String)
    (h : (sync_tool hash net now sys tool platform arch false).ok = true) :
    ∃ e rec, lookup sys.manifest (mkKey tool platform arch) = some e ∧
      lookup (sync_tool hash net now sys tool platform arch false).sys.state
          (mkKey tool platform arch) = some rec ∧
      rec.sha256 = e.sha256 ∧
      sync_tool hash net now2
          (sync_tool hash net now sys tool platform arch false).sys
          tool platform arch false
        = ⟨(sync_tool hash net now sys tool platform arch false).sys,
           true, 0, 0, 0⟩ := by
  obtain ⟨e, u, heq, hurl, hne, hman, rec, hrec, hsha⟩ :=
    sync_ok_record hash net now sys tool platform arch false h
  refine ⟨e, rec, heq, hrec, hsha, ?_⟩
  have hutd : upToDateB
      (sync_tool hash net now sys tool platform arch false).sys.state
      (mkKey tool platform arch) e.sha256 false = true := by
    unfold upToDateB
    rw [hrec]
    simp [hsha]
  conv_lhs => rw [sync_tool]
  rw [hman, heq]
  simp [hurl, hne, hutd]

/-- C3: after a successful non-forced `sync_tool` call, the state store
holds a record whose digest equals the manifest's current digest, and a
second non-forced call on the unchanged manifest entry returns
up-to-date immediately: same system state, success, and zero
`download_file` calls, digest computations and extraction attempts. -/
theorem sync_idempotent (hash : Content → String)
    (net : String → Option Content) (now now2 : String) (sys : Sys)
    (tool platform arch : String)
    (h : (sync_tool hash net now sys tool platform arch false).ok = true) :
    ∃ e rec, lookup sys.manifest (mkKey tool platform arch) = some e ∧
      lookup (sync_tool hash net now sys tool platform arch false).sys.state
          (mkKey tool platform arch) = some rec ∧
      rec.sha256 = e.sha256 ∧
      sync_tool hash net now2
          (sync_tool hash net now sys tool platform arch false).sys
          tool platform arch false
        = ⟨(sync_tool hash net now sys tool platform arch false).sys,
           true, 0, 0, 0⟩ :=
  sync_rerun_noop hash net now now2 sys tool platform arch h

/-- Concrete instance of `sync_idempotent`: a fresh install of the
example tar-served tool, then an immediate re-sync that is a no-op. -/
theorem sync_idempotent_witness :
    sync_tool exHash exNet "t1"
        (sync_tool exHash exNet "t0" exSys "fzf" "linux" "amd64" false).sys
        "fzf" "linux" "amd64" false
      = ⟨(sync_tool exHash exNet "t0" exSys "fzf" "linux" "amd64" false).sys,
         true, 0, 0, 0⟩ := by
  have h := sync_idempotent exHash exNet "t0" "t1" exSys "fzf" "linux" "amd64"
    (by decide)
  exact h.choose_spec.choose_spec.2.2.2

/-! ### C2: installed digest vs. manifest digest -/

/-- A `download_file` call with an expected digest that reports a
downloaded content wrote exactly that content at the destination and
that content's digest equals the expected one. -/
theorem download_got_verified (hash : Content → String)
    (net : String → Option Content) (files : List (String × Content))
    (u dest d : String) (files' : List (String × Content)) (c : Content)
    (st : DlStatus) (tl : Bool) (hs : Nat)
    (h : download_file hash net files u dest (some d)
      = ⟨files', some c, st, tl, hs⟩) :
    files' = upsert files dest c ∧ hash c = d := by
  unfold download_file at h
  cases hn : net u with
  | none => rw [hn] at h; simp at h
  | some c0 =>
    rw [hn] at h
    dsimp only at h
    by_cases hc : hash c0 = d
    · rw [if_pos hc] at h
      simp only [DlOut.mk.injEq, Option.some.injEq] at h
      obtain ⟨hf, hcc, -, -, -⟩ := h
      subst hcc
      exact ⟨hf.symm, hc⟩
    · rw [if_neg hc] at h
      simp at h

/-- A fetch phase run with a declared digest that hands back a content
to extract has left that content at the cache filename, and its digest
equals the declared one — the cache is never trusted unverified. -/
theorem fetchPhase_some_verified (hash : Content → String)
    (net : String → Option Content) (cache : List (String × Content))
    (u cf d : String) (force : Bool) (cache' : List (String × Content))
    (c : Content) (ft hn : Nat)
    (h : fetchPhase hash net cache u cf (some d) force
      = ⟨cache', some c, ft, hn⟩) :
    lookup cache' cf = some c ∧ hash c = d := by
  unfold fetchPhase at h
  by_cases hf : force
  · rw [if_pos hf] at h
    cases hd : download_file hash net cache u cf (some d) with
    | mk files got st tl hs =>
      rw [hd] at h
      simp only [FetchOut.mk.injEq] at h
      obtain ⟨h1, h2, -, -⟩ := h
      subst h1 h2
      obtain ⟨hfp, hcd⟩ := download_got_verified hash net cache u cf d
        files c st tl hs hd
      rw [hfp]
      exact ⟨lookup_upsert_self _ _ _, hcd⟩
  · rw [if_neg hf] at h
    cases hlk : lookup cache cf with
    | none =>
      rw [hlk] at h
      cases hd : download_file hash net cache u cf (some d) with
      | mk files got st tl hs =>
        rw [hd] at h
        simp only [FetchOut.mk.injEq] at h
        obtain ⟨h1, h2, -, -⟩ := h
        subst h1 h2
        obtain ⟨hfp, hcd⟩ := download_got_verified hash net cache u cf d
          files c st tl hs hd
        rw [hfp]
        exact ⟨lookup_upsert_self _ _ _, hcd⟩
    | some c0 =>
      rw [hlk] at h
      dsimp only at h
      by_cases hc : hash c0 = d
      · rw [if_pos hc] at h
        simp only [FetchOut.mk.injEq, Option.some.injEq] at h
        obtain ⟨h1, h2, -, -⟩ := h
        subst h1 h2
        exact ⟨hlk, hc⟩
      · rw [if_neg hc] at h
        cases hd : download_file hash net cache u cf (some d) with
        | mk files got st tl hs =>
          rw [hd] at h
          simp only [FetchOut.mk.injEq] at h
          obtain ⟨h1, h2, -, -⟩ := h
          subst h1 h2
          obtain ⟨hfp, hcd⟩ := download_got_verified hash net cache u cf d
            files c st tl hs hd
          rw [hfp]
          exact ⟨lookup_upsert_self _ _ _, hcd⟩

/-- Shape of a `sync_tool` call that succeeded through the install path
(one extraction attempt): the fetch phase handed back an archive
content, extraction found the binary, and the result is exactly the
installed system. -/
theorem sync_install_shape (hash : Content → String)
    (net : String → Option Content) (now : String) (sys : Sys)
    (tool platform arch : String) (force : Bool)
    (hok : (sync_tool hash net now sys tool platform arch force).ok = true)
    (hx : (sync_tool hash net now sys tool platform arch force).extracts
      = 1) :
    ∃ e u cache' c bc ft hn,
      lookup sys.manifest (mkKey tool platform arch) = some e ∧
      e.url = some u ∧
      fetchPhase hash net sys.cache u (cacheName tool e.tag platform arch u)
          e.sha256 force = ⟨cache', some c, ft, hn⟩ ∧
      extract_binary (cacheName tool e.tag platform arch u) c
          (e.path_in_archive.getD (e.binary_name.getD tool)) = some bc ∧
      sync_tool hash net now sys tool platform arch force
        = ⟨⟨sys.manifest,
            upsert sys.state (mkKey tool platform arch) ⟨e.sha256, u, now⟩,
            cache',
            upsert sys.bins (binPath platform arch (e.binary_name.getD tool))
              bc⟩,
           true, ft, hn, 1⟩ := by
  revert hok hx
  unfold sync_tool
  split
  · intro h _; simp at h
  next entry heq =>
    split
    · intro h _; simp at h
    next u hurl =>
      split
      · intro h _; simp at h
      · split
        · intro _ h; simp at h
        · split
          · intro h _; simp at h
          next cache' c ft hn hF =>
            split
            · intro h _; simp at h
            next bc hext =>
              intro _ _
              exact ⟨entry, u, cache', c, bc, ft, hn, heq, hurl, hF, hext,
                rfl⟩

/-- C2 (amended): a `sync_tool` call that succeeds through the install
path with a declared digest leaves at the cache filename a content whose
digest equals the declared one, and — when the artifact is a raw binary
(no archive dispatch) — the installed file itself has that digest. For
archive artifacts it is the archive, not the extracted member, whose
digest is checked. -/
theorem sync_install_digest_verified (hash : Content → String)
    (net : String → Option Content) (now : String) (sys : Sys)
    (tool platform arch : String) (force : Bool) (e : Entry) (u d : String)
    (heq : lookup sys.manifest (mkKey tool platform arch) = some e)
    (hurl : e.url = some u) (hd : e.sha256 = some d)
    (hok : (sync_tool hash net now sys tool platform arch force).ok = true)
    (hx : (sync_tool hash net now sys tool platform arch force).extracts
      = 1) :
    (∃ c, lookup (sync_tool hash net now sys tool platform arch force).sys.cache
        (cacheName tool e.tag platform arch u) = some c ∧ hash c = d) ∧
    (archKind (cacheName tool e.tag platform arch u) = ArchKind.rawK →
      ∃ c, lookup (sync_tool hash net now sys tool platform arch force).sys.bins
          (binPath platform arch (e.binary_name.getD tool)) = some c ∧
        hash c = d) := by
  obtain ⟨e', u', cache', c, bc, ft, hn, heq', hurl', hF, hext, hr⟩ :=
    sync_install_shape hash net now sys tool platform arch force hok hx
  rw [heq] at heq'
  injection heq' with hEe
  subst hEe
  rw [hurl] at hurl'
  injection hurl' with hUu
  subst hUu
  rw [hd] at hF
  obtain ⟨hlk, hhc⟩ :=
    fetchPhase_some_verified hash net sys.cache u
      (cacheName tool e.tag platform arch u) d force cache' c ft hn hF
  constructor
  · rw [hr]
    exact ⟨c, hlk, hhc⟩
  · intro hk
    unfold extract_binary at hext
    rw [hk] at hext
    dsimp only at hext
    injection hext with hbc
    subst hbc
    rw [hr]
    exact ⟨c, lookup_upsert_self _ _ _, hhc⟩

/-- C2 counterexample: a successful sync of a tar-served tool whose
manifest digest (of the archive) is verified, yet the file installed at
the install path has a different digest — the claim's "installed
binary's digest equals the manifest's declared digest" fails for
archive artifacts. -/
theorem sync_install_digest_cex :
    (sync_tool exHash exNet "t0" exSys "fzf" "linux" "amd64" false).ok
        = true ∧
    (lookup exSys.manifest (mkKey "fzf" "linux" "amd64")).map Entry.sha256
        = some (some "t1") ∧
    (lookup (sync_tool exHash exNet "t0" exSys "fzf" "linux"
          "amd64" false).sys.bins
        (binPath "linux" "amd64" "fzf")).map exHash = some "r6" ∧
    ¬"r6" = "t1" := by
  refine ⟨by decide, by decide, by decide, by decide⟩

/-- Concrete instance of `sync_install_digest_verified`: a raw binary
install whose installed file's digest equals the manifest digest. -/
theorem sync_install_digest_verified_witness :
    (∃ c, lookup (sync_tool exHash rawNet "t0" rawSys "fzf" "linux"
          "amd64" false).sys.cache
        (cacheName "fzf" rawEntry.tag "linux" "amd64" "http://x/fzf")
          = some c ∧ exHash c = "r7") ∧
    (archKind (cacheName "fzf" rawEntry.tag "linux" "amd64" "http://x/fzf")
        = ArchKind.rawK →
      ∃ c, lookup (sync_tool exHash rawNet "t0" rawSys "fzf" "linux"
            "amd64" false).sys.bins
          (binPath "linux" "amd64" (rawEntry.binary_name.getD "fzf"))
            = some c ∧ exHash c = "r7") := by
  have h := sync_install_digest_verified exHash rawNet "t0" rawSys "fzf"
    "linux" "amd64" false rawEntry "http://x/fzf" "r7"
    (by decide) (by decide) (by decide) (by decide) (by decide)
  exact h

/-! ### C6: stale cache is never reused silently -/

/-- When the cache holds a file whose digest differs from the declared
one, the non-forced fetch phase performs exactly one download. -/
theorem fetchPhase_stale_fetches (hash : Content → String)
    (net : String → Option Content) (cache : List (String × Content))
    (u cf d : String) (c0 : Content)
    (hlk : lookup cache cf = some c0) (hmm2 : ¬hash c0 = d) :
    (fetchPhase hash net cache u cf (some d) false).fetches = 1 := by
  unfold fetchPhase
  rw [if_neg (by simp)]
  rw [hlk]
  dsimp only
  rw [if_neg hmm2]

/-- C6: a non-forced `sync_tool` run whose cache file's recomputed
digest differs from the manifest's declared digest never reuses that
file silently: it re-downloads exactly once (with verification), and on
success the content at the cache filename — the one extraction reads —
has the declared digest. -/
theorem sync_stale_cache_not_reused (hash : Content → String)
    (net : String → Option Content) (now : String) (sys : Sys)
    (tool platform arch : String) (e : Entry) (u d : String) (c0 : Content)
    (heq : lookup sys.manifest (mkKey tool platform arch) = some e)
    (hurl : e.url = some u) (hne : ¬u = "")
    (hnutd : upToDateB sys.state (mkKey tool platform arch) e.sha256 false
      = false)
    (hd : e.sha256 = some d)
    (hlk : lookup sys.cache (cacheName tool e.tag platform arch u) = some c0)
    (hmm2 : ¬hash c0 = d) :
    (sync_tool hash net now sys tool platform arch false).fetches = 1 ∧
    ((sync_tool hash net now sys tool platform arch false).ok = true →
      ∃ c, lookup
          (sync_tool hash net now sys tool platform arch false).sys.cache
          (cacheName tool e.tag platform arch u) = some c ∧ hash c = d) := by
  have hft := fetchPhase_stale_fetches hash net sys.cache u
    (cacheName tool e.tag platform arch u) d c0 hlk hmm2
  unfold sync_tool
  rw [heq]
  dsimp only
  rw [hurl]
  dsimp only
  rw [if_neg hne]
  rw [hnutd]
  rw [if_neg (by simp)]
  rw [hd]
  rcases hF : fetchPhase hash net sys.cache u
      (cacheName tool e.tag platform arch u) (some d) false with
    ⟨cache', res, ft, hn⟩
  rw [hF] at hft
  have hft' : ft = 1 := hft
  cases res with
  | none =>
    dsimp only
    refine ⟨hft', ?_⟩
    intro h
    simp at h
  | some c =>
    obtain ⟨hlk', hhc⟩ := fetchPhase_some_verified hash net sys.cache u
      (cacheName tool e.tag platform arch u) d false cache' c ft hn hF
    dsimp only
    cases hX : extract_binary (cacheName tool e.tag platform arch u) c
        (e.path_in_archive.getD (e.binary_name.getD tool)) with
    | none =>
      refine ⟨hft', ?_⟩
      intro h
      simp at h
    | some bc =>
      exact ⟨hft', fun _ => ⟨c, hlk', hhc⟩⟩

/-- Concrete instance of `sync_stale_cache_not_reused`: a system with a
corrupted cache file for the key re-downloads once and ends with the
verified content in the cache. -/
theorem sync_stale_cache_not_reused_witness :
    (sync_tool exHash rawNet "t0" staleSys "fzf" "linux" "amd64"
        false).fetches = 1 ∧
    ((sync_tool exHash rawNet "t0" staleSys "fzf" "linux" "amd64"
        false).ok = true →
      ∃ c, lookup (sync_tool exHash rawNet "t0" staleSys "fzf" "linux"
            "amd64" false).sys.cache
          (cacheName "fzf" rawEntry.tag "linux" "amd64" "http://x/fzf")
            = some c ∧ exHash c = "r7") :=
  sync_stale_cache_not_reused exHash rawNet "t0" staleSys "fzf" "linux"
    "amd64" rawEntry "http://x/fzf" "r7" (Content.raw [9, 9])
    (by decide) (by decide) (by decide) (by decide) (by decide) (by decide)
    (by decide)

/-! ### C10: entries without a declared digest -/

/-- A download with no expected digest never computes one. -/
theorem download_none_hashes (hash : Content → String)
    (net : String → Option Content) (files : List (String × Content))
    (u dest : String) :
    (download_file hash net files u dest none).hashes = 0 := by
  unfold download_file
  cases hn : net u <;> rfl

/-- A fetch phase with no declared digest never computes a digest: the
cached file is reused without the re-check, and a download runs
unverified. -/
theorem fetchPhase_none_hashes (hash : Content → String)
    (net : String → Option Content) (cache : List (String × Content))
    (u cf : String) (force : Bool) :
    (fetchPhase hash net cache u cf none force).hashes = 0 := by
  unfold fetchPhase
  by_cases hf : force
  · rw [if_pos hf]
    have hd := download_none_hashes hash net cache u cf
    cases hdl : download_file hash net cache u cf none with
    | mk files got st tl hs =>
      rw [hdl] at hd
      exact hd
  · rw [if_neg hf]
    cases hlk : lookup cache cf with
    | none =>
      have hd := download_none_hashes hash net cache u cf
      cases hdl : download_file hash net cache u cf none with
      | mk files got st tl hs =>
        rw [hdl] at hd
        exact hd
    | some c => rfl

/-- C10: for a manifest entry with no declared digest, a non-forced
`sync_tool` call computes no digest at all (in particular the cached
file is reused without the digest re-check); on success the state record
written for the key has a `None` digest, and a second non-forced call on
the still digest-less entry returns up-to-date (`None == None`) with the
system unchanged and zero fetches, digest computations and
extractions. -/
theorem sync_no_digest (hash : Content → String)
    (net : String → Option Content) (now now2 : String) (sys : Sys)
    (tool platform arch : String) (e : Entry)
    (heq : lookup sys.manifest (mkKey tool platform arch) = some e)
    (hd : e.sha256 = none) :
    (sync_tool hash net now sys tool platform arch false).hashes = 0 ∧
    ((sync_tool hash net now sys tool platform arch false).ok = true →
      (∃ rec, lookup
          (sync_tool hash net now sys tool platform arch false).sys.state
          (mkKey tool platform arch) = some rec ∧ rec.sha256 = none) ∧
      sync_tool hash net now2
          (sync_tool hash net now sys tool platform arch false).sys
          tool platform arch false
        = ⟨(sync_tool hash net now sys tool platform arch false).sys,
           true, 0, 0, 0⟩) := by
  constructor
  · unfold sync_tool
    rw [heq]
    dsimp only
    cases hu : e.url with
    | none => rfl
    | some u =>
      dsimp only
      by_cases hne : u = ""
      · rw [if_pos hne]
      · rw [if_neg hne]
        by_cases hutd : upToDateB sys.state (mkKey tool platform arch)
            e.sha256 false = true
        · rw [hutd]
          rw [if_pos rfl]
        · rw [Bool.eq_false_iff.mpr hutd]
          rw [if_neg (by simp)]
          rw [hd]
          have hfp := fetchPhase_none_hashes hash net sys.cache u
            (cacheName tool e.tag platform arch u) false
          rcases hF : fetchPhase hash net sys.cache u
              (cacheName tool e.tag platform arch u) none false with
            ⟨cache', res, ft, hn⟩
          rw [hF] at hfp
          have hfp' : hn = 0 := hfp
          cases res with
          | none => exact hfp'
          | some c =>
            dsimp only
            cases hX : extract_binary (cacheName tool e.tag platform arch u)
                c (e.path_in_archive.getD (e.binary_name.getD tool)) with
            | none => exact hfp'
            | some bc => exact hfp'
  · intro hok
    obtain ⟨e', rec, heq', hrec, hsha, hnoop⟩ :=
      sync_rerun_noop hash net now now2 sys tool platform arch hok
    rw [heq] at heq'
    injection heq' with hEe
    subst hEe
    rw [hd] at hsha
    exact ⟨⟨rec, hrec, hsha⟩, hnoop⟩

/-- Concrete instance of `sync_no_digest`: a digest-less entry installs
with zero digest computations, records a `None` digest, and re-syncs as
a no-op. -/
theorem sync_no_digest_witness :
    (sync_tool exHash rawNet "t0" noShaSys "fzf" "linux" "amd64"
        false).hashes = 0 ∧
    ((∃ rec, lookup (sync_tool exHash rawNet "t0" noShaSys "fzf" "linux"
          "amd64" false).sys.state
        (mkKey "fzf" "linux" "amd64") = some rec ∧ rec.sha256 = none) ∧
      sync_tool exHash rawNet "t1"
          (sync_tool exHash rawNet "t0" noShaSys "fzf" "linux" "amd64"
            false).sys "fzf" "linux" "amd64" false
        = ⟨(sync_tool exHash rawNet "t0" noShaSys "fzf" "linux" "amd64"
            false).sys, true, 0, 0, 0⟩) := by
  have h := sync_no_digest exHash rawNet "t0" "t1" noShaSys "fzf" "linux"
    "amd64" noShaEntry (by decide) (by decide)
  exact ⟨h.1, h.2 (by decide)⟩

/-! ### C5: partial-failure isolation in sync_all -/

/-- The keys of the `sync_all` result map are exactly the processed
manifest keys, in order, whatever each key's outcome: a failure never
stops the loop or drops a later key. -/
theorem syncAllGo_keys (hash : Content → String)
    (net : String → Option Content) (now : String)
    (cur : Option (String × String)) (force : Bool) :
    ∀ (l : List (String × Entry)) (sys : Sys),
      (syncAllGo hash net now cur force sys l).results.map Prod.fst
        = processedKeys l cur := by
  intro l
  induction l with
  | nil => intro sys; rfl
  | cons kv rest ih =>
    intro sys
    obtain ⟨k, e⟩ := kv
    unfold syncAllGo processedKeys
    cases hs : splitKey k with
    | nil => exact ih sys
    | cons x0 r0 =>
      cases r0 with
      | nil => exact ih sys
      | cons x1 r1 =>
        cases r1 with
        | nil => exact ih sys
        | cons x2 r2 =>
          cases r2 with
          | nil =>
            by_cases hskip : skipKey cur x1 x2 = true
            · simp only [hskip, if_true]
              exact ih sys
            · have hbf : ¬(false = true) := by simp
              simp only [Bool.eq_false_iff.mpr hskip, if_neg hbf,
                List.map_cons]
              rw [ih]
          | cons x3 r3 => exact ih sys

/-- Splitting a result list by outcome preserves its length. -/
theorem results_filter_split (l : List (String × Bool)) :
    (l.filter (fun kv => kv.2)).length
      + (l.filter (fun kv => !kv.2)).length = l.length := by
  induction l with
  | nil => rfl
  | cons a t ih =>
    cases h : a.2 <;> simp [List.filter_cons, h] <;> omega

/-- C5: `sync_all` gives every processed manifest key exactly one
boolean outcome — a key's failure is captured in the result map and
never aborts the remaining keys — so when exactly one key fails, the
other N-1 keys all report success. -/
theorem sync_all_partial_isolation (hash : Content → String)
    (net : String → Option Content) (now : String)
    (cur : Option (String × String)) (force : Bool) (sys : Sys)
    (h1 : ((sync_all hash net now cur force sys).results.filter
        (fun kv => !kv.2)).length = 1) :
    (sync_all hash net now cur force sys).results.map Prod.fst
      = processedKeys sys.manifest cur ∧
    ((sync_all hash net now cur force sys).results.filter
        (fun kv => kv.2)).length
      = (processedKeys sys.manifest cur).length - 1 := by
  have hk : (sync_all hash net now cur force sys).results.map Prod.fst
      = processedKeys sys.manifest cur :=
    syncAllGo_keys hash net now cur force sys.manifest sys
  refine ⟨hk, ?_⟩
  have hlen : (sync_all hash net now cur force sys).results.length
      = (processedKeys sys.manifest cur).length := by
    rw [← hk, List.length_map]
  have hsplit := results_filter_split
    (sync_all hash net now cur force sys).results
  omega

/-- Concrete instance of `sync_all_partial_isolation`: a two-key
manifest where one URL is unreachable; the other key installs and the
aggregate reports exactly one failure. -/
theorem sync_all_partial_isolation_witness :
    (sync_all exHash rawNet "t0" none false twoSys).results.map Prod.fst
      = processedKeys twoSys.manifest none ∧
    ((sync_all exHash rawNet "t0" none false twoSys).results.filter
        (fun kv => kv.2)).length
      = (processedKeys twoSys.manifest none).length - 1 :=
  sync_all_partial_isolation exHash rawNet "t0" none false twoSys
    (by decide)

end Dotbins
